import Mathlib

/-!
Shallow embedding of the complexity-classification engine in
src/time/time.cpp (class ComplexityAnalyzer): the line normalizer, the
regex pattern matchers, the nesting tracker, the per-line classifier,
the function registry pre-pass and the overall estimator, followed by
theorems checking the specification's claims against it.

The C++ code drives everything with std::regex (ECMAScript syntax) over
single lines; the patterns here are hand-compiled deterministic scanners
for those exact regexes:
  trim              :  regex_replace "^\s+|\s+$" -> ""
  loop opener       :  \b(for|while)\s*\(
  function signature:  \b([a-zA-Z_][a-zA-Z0-9_]*)\s*\([^)]*\)\s*(?:const)?\s*[{]
  registry pre-pass :  same but ending [{;]
  call statement    :  \b[a-zA-Z_][a-zA-Z0-9_]*\s*\([^)]*\)\s*;
  recursive call    :  \b<name>\s*\(
`regex_search` finds the leftmost position at which the pattern matches;
the scanners below walk the character list left to right carrying the
"previous character is a word character" flag that decides `\b`.
-/

/-- ECMAScript word character `\w` = `[a-zA-Z0-9_]` (ASCII). -/
def isWordChar (c : Char) : Bool := c.isAlpha || c.isDigit || c == '_'

/-- First character of an identifier: `[a-zA-Z_]`. -/
def isIdentStart (c : Char) : Bool := c.isAlpha || c == '_'

/-- ECMAScript whitespace `\s` over char input: space, `\t`, `\n`, `\r`, `\v`, `\f`. -/
def isWsChar (c : Char) : Bool :=
  c == ' ' || c == '\t' || c == '\n' || c == '\r' || c == '\x0b' || c == '\x0c'

/-- `\s*`: drop the leading whitespace run. -/
def skipWs (s : List Char) : List Char := s.dropWhile isWsChar

/-- Match a literal string at the head of the input; return the rest on success. -/
def litAt : List Char → List Char → Option (List Char)
  | [], s => some s
  | _ :: _, [] => none
  | p :: ps, c :: cs => if p = c then litAt ps cs else none

/-- `\s*\(`: whitespace then an opening parenthesis. -/
def spacesThenParen : List Char → Bool
  | [] => false
  | c :: cs => if c = '(' then true else if isWsChar c then spacesThenParen cs else false

/-- `[a-zA-Z_][a-zA-Z0-9_]*` at the head of the input: the (greedy, maximal)
identifier and the rest.  Backtracking to a shorter identifier can never help
the patterns below (the next regex atom is `\s*\(`, and a word character
matches neither `\s` nor `\(`), so the maximal capture is the only viable one. -/
def identAt : List Char → Option (List Char × List Char)
  | [] => none
  | c :: cs =>
    if isIdentStart c then some (c :: cs.takeWhile isWordChar, cs.dropWhile isWordChar)
    else none

/-- `[^)]*\)`: skip to just past the first closing parenthesis; fails if none. -/
def closeParen : List Char → Option (List Char)
  | [] => none
  | c :: cs => if c = ')' then some cs else closeParen cs

/-- `\s*(?:const)?\s*[E]` for an end-character set `E` (`[{]` in the
classification pass, `[{;]` in the registry pre-pass). -/
def constEndTail (ends : List Char) (s : List Char) : Bool :=
  (match litAt "const".toList (skipWs s) with
   | some r =>
     match skipWs r with
     | c :: _ => ends.contains c
     | [] => false
   | none => false)
  ||
  (match skipWs s with
   | c :: _ => ends.contains c
   | [] => false)

/-- `\s*;`. -/
def semiTail (s : List Char) : Bool :=
  match skipWs s with
  | ';' :: _ => true
  | _ => false

/-- `(for|while)\s*\(` anchored at the head of the input. -/
def loopHere (s : List Char) : Bool :=
  (match litAt "for".toList s with
   | some r => spacesThenParen r
   | none => false)
  ||
  (match litAt "while".toList s with
   | some r => spacesThenParen r
   | none => false)

/-- Search for `\b(for|while)\s*\(`, threading the word-boundary flag. -/
def scanLoop : Bool → List Char → Bool
  | _, [] => false
  | prevWord, c :: cs => (!prevWord && loopHere (c :: cs)) || scanLoop (isWordChar c) cs

/-- The loop-opener detector used at time.cpp:124 and time.cpp:158. -/
def hasLoopOpener (line : String) : Bool := scanLoop false line.toList

/-- `[a-zA-Z_][a-zA-Z0-9_]*\s*\([^)]*\)\s*(?:const)?\s*[E]` anchored at the
head; returns the captured identifier. -/
def fsigHere (ends : List Char) (s : List Char) : Option (List Char) :=
  match identAt s with
  | none => none
  | some (nm, r0) =>
    match skipWs r0 with
    | '(' :: r1 =>
      match closeParen r1 with
      | some r2 => if constEndTail ends r2 then some nm else none
      | none => none
    | _ => none

/-- Search for the function-signature pattern, threading the boundary flag;
returns the capture of the leftmost match, like `regex_search` with `smatch`. -/
def scanFsig (ends : List Char) : Bool → List Char → Option (List Char)
  | _, [] => none
  | prevWord, c :: cs =>
    match (if prevWord then none else fsigHere ends (c :: cs)) with
    | some nm => some nm
    | none => scanFsig ends (isWordChar c) cs

/-- The function-signature extractor of the classification pass (time.cpp:153),
pattern ending `[{]`. -/
def fsigMatch (line : String) : Option String :=
  (scanFsig ['\x7b'] false line.toList).map (fun l => ⟨l⟩)

/-- The looser declaration extractor of the registry pre-pass (time.cpp:72),
pattern ending `[{;]`. -/
def fsigDecl (line : String) : Option String :=
  (scanFsig ['\x7b', ';'] false line.toList).map (fun l => ⟨l⟩)

/-- `[a-zA-Z_][a-zA-Z0-9_]*\s*\([^)]*\)\s*;` anchored at the head. -/
def callHere (s : List Char) : Bool :=
  match identAt s with
  | none => false
  | some (_, r0) =>
    match skipWs r0 with
    | '(' :: r1 =>
      match closeParen r1 with
      | some r2 => semiTail r2
      | none => false
    | _ => false

/-- Search for the call-statement pattern. -/
def scanCall : Bool → List Char → Bool
  | _, [] => false
  | prevWord, c :: cs => (!prevWord && callHere (c :: cs)) || scanCall (isWordChar c) cs

/-- The function-call detector of time.cpp:136. -/
def hasCallStmt (line : String) : Bool := scanCall false line.toList

/-- `<name>\s*\(` anchored at the head. -/
def recHere (nm : List Char) (s : List Char) : Bool :=
  match litAt nm s with
  | some r => spacesThenParen r
  | none => false

/-- Search for `\b<name>\s*\(`. -/
def scanRec (nm : List Char) : Bool → List Char → Bool
  | _, [] => false
  | prevWord, c :: cs => (!prevWord && recHere nm (c :: cs)) || scanRec nm (isWordChar c) cs

/-- `ComplexityAnalyzer::is_recursive` (time.cpp:63-66): empty name never
matches; otherwise search the line for the name followed by `\s*(`. -/
def is_recursive (line : String) (func_name : String) : Bool :=
  if func_name = "" then false
  else scanRec func_name.toList false line.toList

/-- `ComplexityAnalyzer::trim` (time.cpp:52-55): `regex_replace` with
`^\s+|\s+$` removes the leading and the trailing whitespace run. -/
def trim (s : String) : String :=
  ⟨((s.toList.dropWhile isWsChar).reverse.dropWhile isWsChar).reverse⟩

/-- `ComplexityAnalyzer::is_comment` (time.cpp:58-60): empty line, or a line
whose first two characters are `//`. -/
def is_comment (line : String) : Bool :=
  match line.toList with
  | [] => true
  | '/' :: '/' :: _ => true
  | _ => false

/-- `enum class Complexity` (time.cpp:25-32). -/
inductive Complexity where
  | CONSTANT
  | LINEAR
  | QUADRATIC
  | CUBIC
  | LINEARITHMIC
  | UNKNOWN
deriving DecidableEq, Repr

/-- `struct CodeAnalysis` (time.cpp:35-40): the per-line record. -/
structure CodeAnalysis where
  line_number : Nat
  code : String
  complexity : Complexity
  reason : String
deriving DecidableEq, Repr

/-- The mutable members of `class ComplexityAnalyzer` (time.cpp:44-49):
the function registry, the block stack (head = top of `std::stack`), the
current function name, the nesting level and the running maximum. -/
structure AnalyzerState where
  function_calls : List (String × Nat)
  block_stack : List String
  current_function : String
  nesting_level : Int
  max_nesting : Int
deriving DecidableEq, Repr

/-- The member initializers of `ComplexityAnalyzer`: everything empty / zero. -/
def initState : AnalyzerState := ⟨[], [], "", 0, 0⟩

/-- ANSI escapes used in the reason strings (time.cpp:13-21). -/
def RESET : String := "\x1b[0m"

def RED : String := "\x1b[31m"

def GREEN : String := "\x1b[32m"

def YELLOW : String := "\x1b[33m"

def MAGENTA : String := "\x1b[35m"

def CYAN : String := "\x1b[36m"

def WHITE : String := "\x1b[37m"

/-- `ComplexityAnalyzer::get_complexity_reason` (time.cpp:94-117). -/
def get_complexity_reason (line : String) (c : Complexity) : String :=
  match c with
  | .CONSTANT => GREEN ++ "Constant time operation (no loops)" ++ RESET
  | .LINEAR =>
    if hasLoopOpener line then YELLOW ++ "Single loop running n times" ++ RESET
    else YELLOW ++ "Linear time operation" ++ RESET
  | .QUADRATIC => RED ++ "Nested loops (n × n iterations)" ++ RESET
  | .CUBIC => MAGENTA ++ "Triple nested loops (n × n × n iterations)" ++ RESET
  | .LINEARITHMIC => CYAN ++ "Divide-and-conquer or recursive algorithm" ++ RESET
  | .UNKNOWN => WHITE ++ "Unable to determine complexity" ++ RESET

/-- `ComplexityAnalyzer::analyze_line` (time.cpp:120-141), reading the
nesting level and current function of the state it is called on. -/
def analyze_line (st : AnalyzerState) (line : String) : Complexity :=
  if is_comment line then .CONSTANT
  else if hasLoopOpener line then
    if st.nesting_level = 0 then .LINEAR
    else if st.nesting_level = 1 then .QUADRATIC
    else .CUBIC
  else if st.current_function ≠ "" ∧ is_recursive line st.current_function = true then
    .LINEARITHMIC
  else if hasCallStmt line then .UNKNOWN
  else .CONSTANT

/-- time.cpp:152-155: update `current_function` when the signature pattern
matches on the (already trimmed) line. -/
def fsigUpdate (st : AnalyzerState) (line : String) : AnalyzerState :=
  match fsigMatch line with
  | some nm => { st with current_function := nm }
  | none => st

/-- time.cpp:157-165: push a loop frame (and bump the nesting level and the
running maximum) on a loop opener, else push a generic block frame if the
line contains an opening brace. -/
def trackOpen (st : AnalyzerState) (line : String) : AnalyzerState :=
  if hasLoopOpener line then
    { st with block_stack := "loop" :: st.block_stack,
              nesting_level := st.nesting_level + 1,
              max_nesting := max st.max_nesting (st.nesting_level + 1) }
  else if line.toList.contains '\x7b' then
    { st with block_stack := "block" :: st.block_stack }
  else st

/-- time.cpp:176-180: on a closing brace with a non-empty stack, pop the top
frame, decrementing the nesting level when it was a loop frame. -/
def trackClose (st : AnalyzerState) (line : String) : AnalyzerState :=
  if line.toList.contains '\x7d' then
    match st.block_stack with
    | [] => st
    | top :: rest =>
      if top = "loop" then
        { st with block_stack := rest, nesting_level := st.nesting_level - 1 }
      else { st with block_stack := rest }
  else st

/-- The full state effect of one iteration of the loop in
`ComplexityAnalyzer::analyze` (time.cpp:148-181) on one raw line. -/
def lineStep (st : AnalyzerState) (raw : String) : AnalyzerState :=
  trackClose (trackOpen (fsigUpdate st (trim raw)) (trim raw)) (trim raw)

/-- The record pushed for one raw line (time.cpp:167-174): the classification
runs after the signature update and the open-tracking of the same line, but
before its close-tracking. -/
def lineRecord (st : AnalyzerState) (idx : Nat) (raw : String) : CodeAnalysis :=
  let line := trim raw
  let st2 := trackOpen (fsigUpdate st line) line
  let comp := analyze_line st2 line
  ⟨idx + 1, line, comp, get_complexity_reason line comp⟩

/-- The loop of `ComplexityAnalyzer::analyze` from line index `idx` on. -/
def analyzeFrom (st : AnalyzerState) (idx : Nat) :
    List String → AnalyzerState × List CodeAnalysis
  | [] => (st, [])
  | l :: ls =>
    let r := analyzeFrom (lineStep st l) (idx + 1) ls
    (r.1, lineRecord st idx l :: r.2)

/-- `unordered_map<string,int>` increment `function_calls[name]++`, on an
association list. -/
def bump : List (String × Nat) → String → List (String × Nat)
  | [], k => [(k, 1)]
  | (k', v) :: rest, k =>
    if k = k' then (k', v + 1) :: rest else (k', v) :: bump rest k

/-- `ComplexityAnalyzer::track_function_definitions` (time.cpp:69-76): one
pre-pass over the raw lines, counting every apparent declaration. -/
def buildRegistry (lines : List String) : List (String × Nat) :=
  lines.foldl
    (fun fc l =>
      match fsigDecl l with
      | some nm => bump fc nm
      | none => fc)
    []

/-- The analyzer state at the start of the per-line loop of `analyze`:
freshly constructed members, with the registry filled by the pre-pass. -/
def startState (lines : List String) : AnalyzerState :=
  { initState with function_calls := buildRegistry lines }

/-- `ComplexityAnalyzer(code).analyze()`: final state and record list. -/
def runAnalyze (lines : List String) : AnalyzerState × List CodeAnalysis :=
  analyzeFrom (startState lines) 0 lines

/-- `ComplexityAnalyzer::estimate_overall_complexity`s switch (time.cpp:188-194)
as a function of the `max_nesting` value. -/
def depthSwitch (m : Int) : Complexity :=
  if m = 0 then .CONSTANT
  else if m = 1 then .LINEAR
  else if m = 2 then .QUADRATIC
  else if m = 3 then .CUBIC
  else .LINEARITHMIC

/-- `ComplexityAnalyzer::estimate_overall_complexity` (time.cpp:187-195):
reads only `max_nesting`. -/
def estimate_overall_complexity (st : AnalyzerState) : Complexity :=
  depthSwitch st.max_nesting

/-- The overall verdict of a run, as printed by `main` (time.cpp:241). -/
def overallVerdict (lines : List String) : Complexity :=
  estimate_overall_complexity (runAnalyze lines).1

/-- The final running maximum loop-nesting depth of a run. -/
def finalMax (lines : List String) : Int :=
  ((runAnalyze lines).1).max_nesting

/-- One whole program run as in `main` (time.cpp:238-241): a freshly
constructed analyzer, its record list and its overall verdict. -/
def runProgram (lines : List String) : List CodeAnalysis × Complexity :=
  ((runAnalyze lines).2, overallVerdict lines)

/-- Two runs on the same input, each with its own freshly constructed
analyzer object (all members re-initialized, as the constructor does). -/
def runPair (lines : List String) :
    (List CodeAnalysis × Complexity) × (List CodeAnalysis × Complexity) :=
  (runProgram lines, runProgram lines)

/-- The sequence of analyzer states during the classification pass:
the state before each line, then the final state. -/
def stateTrace (st : AnalyzerState) : List String → List AnalyzerState
  | [] => [st]
  | l :: ls => st :: stateTrace (lineStep st l) ls

/-- The number of `"loop"` frames on the block stack, as an `Int` for
comparison with the nesting level. -/
def countLoop : List String → Int
  | [] => 0
  | f :: rest => (if f = "loop" then 1 else 0) + countLoop rest

/-- Modelled from the spec: the overall-estimator mapping of §4.5, stated on
the (non-negative) maximum depth; compared with `estimate_overall_complexity`. -/
def specDepthClass : Nat → Complexity
  | 0 => .CONSTANT
  | 1 => .LINEAR
  | 2 => .QUADRATIC
  | 3 => .CUBIC
  | _ => .LINEARITHMIC

/-! ## Helper lemmas -/

theorem countLoop_nonneg : ∀ bs : List String, 0 ≤ countLoop bs := by
  intro bs
  induction bs with
  | nil => simp [countLoop]
  | cons f rest ih =>
    rw [countLoop]
    split <;> omega

theorem countLoop_block (bs : List String) :
    countLoop ("block" :: bs) = countLoop bs := by
  rw [countLoop, if_neg (by decide)]
  omega

theorem countLoop_loop (bs : List String) :
    countLoop ("loop" :: bs) = countLoop bs + 1 := by
  rw [countLoop, if_pos rfl]
  omega

theorem fsigUpdate_stack (st : AnalyzerState) (line : String) :
    (fsigUpdate st line).block_stack = st.block_stack := by
  rw [fsigUpdate]
  cases fsigMatch line <;> rfl

theorem fsigUpdate_nesting (st : AnalyzerState) (line : String) :
    (fsigUpdate st line).nesting_level = st.nesting_level := by
  rw [fsigUpdate]
  cases fsigMatch line <;> rfl

theorem fsigUpdate_max (st : AnalyzerState) (line : String) :
    (fsigUpdate st line).max_nesting = st.max_nesting := by
  rw [fsigUpdate]
  cases fsigMatch line <;> rfl

theorem fsigUpdate_fc (st : AnalyzerState) (line : String) :
    (fsigUpdate st line).function_calls = st.function_calls := by
  rw [fsigUpdate]
  cases fsigMatch line <;> rfl

theorem trackOpen_current (st : AnalyzerState) (line : String) :
    (trackOpen st line).current_function = st.current_function := by
  rw [trackOpen]
  split
  · rfl
  · split <;> rfl

theorem trackOpen_fc (st : AnalyzerState) (line : String) :
    (trackOpen st line).function_calls = st.function_calls := by
  rw [trackOpen]
  split
  · rfl
  · split <;> rfl

theorem trackOpen_max_le (st : AnalyzerState) (line : String) :
    st.max_nesting ≤ (trackOpen st line).max_nesting := by
  rw [trackOpen]
  split
  · exact le_max_left _ _
  · split <;> exact le_refl _

theorem trackClose_current (st : AnalyzerState) (line : String) :
    (trackClose st line).current_function = st.current_function := by
  rw [trackClose]
  split
  · cases st.block_stack with
    | nil => rfl
    | cons top rest => dsimp only; split <;> rfl
  · rfl

theorem trackClose_max (st : AnalyzerState) (line : String) :
    (trackClose st line).max_nesting = st.max_nesting := by
  rw [trackClose]
  split
  · cases st.block_stack with
    | nil => rfl
    | cons top rest => dsimp only; split <;> rfl
  · rfl

theorem trackClose_fc (st : AnalyzerState) (line : String) :
    (trackClose st line).function_calls = st.function_calls := by
  rw [trackClose]
  split
  · cases st.block_stack with
    | nil => rfl
    | cons top rest => dsimp only; split <;> rfl
  · rfl

theorem trackOpen_inv (st : AnalyzerState) (line : String)
    (h : st.nesting_level = countLoop st.block_stack) :
    (trackOpen st line).nesting_level = countLoop (trackOpen st line).block_stack := by
  rw [trackOpen]
  split
  · dsimp only
    rw [countLoop_loop]
    omega
  · split
    · dsimp only
      rw [countLoop_block]
      exact h
    · exact h

theorem trackClose_inv (st : AnalyzerState) (line : String)
    (h : st.nesting_level = countLoop st.block_stack) :
    (trackClose st line).nesting_level = countLoop (trackClose st line).block_stack := by
  rw [trackClose]
  split
  · rcases hb : st.block_stack with _ | ⟨top, rest⟩
    · exact h
    · dsimp only
      rw [hb, countLoop] at h
      split
      · rename_i htop
        rw [if_pos htop] at h
        dsimp only
        omega
      · rename_i htop
        rw [if_neg htop] at h
        dsimp only
        omega
  · exact h

theorem lineStep_inv (st : AnalyzerState) (raw : String)
    (h : st.nesting_level = countLoop st.block_stack) :
    (lineStep st raw).nesting_level = countLoop (lineStep st raw).block_stack := by
  rw [lineStep]
  apply trackClose_inv
  apply trackOpen_inv
  rw [fsigUpdate_nesting, fsigUpdate_stack]
  exact h

theorem lineStep_max_le (st : AnalyzerState) (raw : String) :
    st.max_nesting ≤ (lineStep st raw).max_nesting := by
  rw [lineStep, trackClose_max]
  calc st.max_nesting = (fsigUpdate st (trim raw)).max_nesting := (fsigUpdate_max st _).symm
    _ ≤ _ := trackOpen_max_le _ _

theorem stateTrace_head? (st : AnalyzerState) (ls : List String) :
    (stateTrace st ls).head? = some st := by
  cases ls <;> rfl

theorem stateTrace_inv (ls : List String) : ∀ st : AnalyzerState,
    st.nesting_level = countLoop st.block_stack →
    ∀ s ∈ stateTrace st ls, s.nesting_level = countLoop s.block_stack := by
  induction ls with
  | nil =>
    intro st h s hs
    rw [stateTrace] at hs
    simp at hs
    exact hs ▸ h
  | cons l ls ih =>
    intro st h s hs
    rw [stateTrace] at hs
    rcases List.mem_cons.mp hs with rfl | hs
    · exact h
    · exact ih _ (lineStep_inv st l h) s hs

theorem stateTrace_max_nonneg (ls : List String) : ∀ st : AnalyzerState,
    0 ≤ st.max_nesting → ∀ s ∈ stateTrace st ls, 0 ≤ s.max_nesting := by
  induction ls with
  | nil =>
    intro st h s hs
    rw [stateTrace] at hs
    simp at hs
    exact hs ▸ h
  | cons l ls ih =>
    intro st h s hs
    rw [stateTrace] at hs
    rcases List.mem_cons.mp hs with rfl | hs
    · exact h
    · exact ih _ (le_trans h (lineStep_max_le st l)) s hs

theorem stateTrace_chain (ls : List String) : ∀ st : AnalyzerState,
    List.Chain' (fun a b => a.max_nesting ≤ b.max_nesting) (stateTrace st ls) := by
  induction ls with
  | nil => intro st; exact List.chain'_singleton st
  | cons l ls ih =>
    intro st
    rw [stateTrace]
    rw [List.chain'_cons']
    refine ⟨?_, ih _⟩
    intro y hy
    rw [stateTrace_head?] at hy
    simp at hy
    exact hy ▸ lineStep_max_le st l

theorem analyzeFrom_fst_max_nonneg (ls : List String) : ∀ (st : AnalyzerState) (idx : Nat),
    0 ≤ st.max_nesting → 0 ≤ (analyzeFrom st idx ls).1.max_nesting := by
  induction ls with
  | nil => intro st idx h; exact h
  | cons l ls ih =>
    intro st idx h
    rw [analyzeFrom]
    exact ih _ _ (le_trans h (lineStep_max_le st l))

theorem finalMax_nonneg (lines : List String) : 0 ≤ finalMax lines :=
  analyzeFrom_fst_max_nonneg lines (startState lines) 0 (le_refl 0)

theorem depthSwitch_eq_spec (m : Int) (h : 0 ≤ m) :
    depthSwitch m = specDepthClass m.toNat := by
  obtain ⟨n, rfl⟩ := Int.eq_ofNat_of_zero_le h
  rw [Int.toNat_ofNat]
  match n with
  | 0 => decide
  | 1 => decide
  | 2 => decide
  | 3 => decide
  | n + 4 =>
    rw [depthSwitch, if_neg (by omega), if_neg (by omega), if_neg (by omega),
      if_neg (by omega)]
    rfl

theorem litAt_takeWhile_dropWhile (p : Char → Bool) :
    ∀ l : List Char, litAt (l.takeWhile p) l = some (l.dropWhile p) := by
  intro l
  induction l with
  | nil => rfl
  | cons c cs ih =>
    by_cases h : p c
    · rw [List.takeWhile_cons, List.dropWhile_cons, if_pos h, if_pos h, litAt, if_pos rfl]
      exact ih
    · rw [List.takeWhile_cons, List.dropWhile_cons, if_neg h, if_neg h, litAt]

theorem spacesThenParen_of_dropWhile :
    ∀ (s r : List Char), s.dropWhile isWsChar = '(' :: r → spacesThenParen s = true := by
  intro s
  induction s with
  | nil => intro r h; simp [List.dropWhile] at h
  | cons c cs ih =>
    intro r h
    rw [List.dropWhile_cons] at h
    by_cases hc : c = '('
    · rw [spacesThenParen, if_pos hc]
    · by_cases hw : isWsChar c
      · rw [if_pos hw] at h
        rw [spacesThenParen, if_neg hc, if_pos hw]
        exact ih r h
      · rw [if_neg hw] at h
        exact absurd (List.head_eq_of_cons_eq h) hc

theorem identAt_eq (s nm r0 : List Char) (h : identAt s = some (nm, r0)) :
    ∃ c cs, s = c :: cs ∧ isIdentStart c = true ∧
      nm = c :: cs.takeWhile isWordChar ∧ r0 = cs.dropWhile isWordChar := by
  match s with
  | [] => rw [identAt] at h; exact absurd h (by simp)
  | c :: cs =>
    rw [identAt] at h
    by_cases hs : isIdentStart c
    · rw [if_pos hs] at h
      refine ⟨c, cs, rfl, hs, ?_, ?_⟩
      · have := (Option.some.injEq _ _).mp h
        exact (congrArg Prod.fst this).symm
      · have := (Option.some.injEq _ _).mp h
        exact (congrArg Prod.snd this).symm
    · rw [if_neg hs] at h
      exact absurd h (by simp)

theorem fsigHere_shape (ends : List Char) (s nm : List Char)
    (h : fsigHere ends s = some nm) : recHere nm s = true ∧ nm ≠ [] := by
  unfold fsigHere at h
  split at h
  · exact absurd h (by simp)
  · rename_i nm0 r0 hid
    split at h
    · rename_i r1 hskip
      split at h
      · rename_i r2 hcp
        split at h
        · have hnm : nm0 = nm := by
            have := (Option.some.injEq _ _).mp h
            exact this
          subst hnm
          obtain ⟨c, cs, rfl, hstart, hnmeq, hr0⟩ := identAt_eq _ _ _ hid
          constructor
          · rw [recHere, hnmeq, litAt, if_pos rfl, litAt_takeWhile_dropWhile]
            dsimp only
            apply spacesThenParen_of_dropWhile _ r1
            rw [← hr0]
            exact hskip
          · rw [hnmeq]; simp
        · exact absurd h (by simp)
      · exact absurd h (by simp)
    · exact absurd h (by simp)

theorem scanFsig_scanRec (ends : List Char) :
    ∀ (s : List Char) (prev : Bool) (nm : List Char),
      scanFsig ends prev s = some nm → scanRec nm prev s = true ∧ nm ≠ [] := by
  intro s
  induction s with
  | nil => intro prev nm h; rw [scanFsig] at h; exact absurd h (by simp)
  | cons c cs ih =>
    intro prev nm h
    rw [scanFsig] at h
    rcases hp : (if prev then none else fsigHere ends (c :: cs)) with _ | nm0
    · rw [hp] at h
      obtain ⟨h1, h2⟩ := ih (isWordChar c) nm h
      refine ⟨?_, h2⟩
      rw [scanRec, h1, Bool.or_true]
    · rw [hp] at h
      have hnm : nm0 = nm := (Option.some.injEq _ _).mp h
      subst hnm
      have hprev : prev = false := by
        cases prev
        · rfl
        · rw [if_pos rfl] at hp; exact absurd hp (by simp)
      subst hprev
      rw [if_neg (by simp)] at hp
      obtain ⟨h1, h2⟩ := fsigHere_shape ends _ _ hp
      refine ⟨?_, h2⟩
      rw [scanRec, Bool.not_false, Bool.true_and, h1, Bool.true_or]

theorem fsigMatch_recursive (line nm : String) (h : fsigMatch line = some nm) :
    nm ≠ "" ∧ is_recursive line nm = true := by
  rw [fsigMatch] at h
  rcases hs : scanFsig ['\x7b'] false line.toList with _ | l
  · rw [hs] at h; exact absurd h (by simp)
  · rw [hs] at h
    simp only [Option.map_some'] at h
    obtain ⟨h1, h2⟩ := scanFsig_scanRec _ _ _ _ hs
    have hnm : nm = (⟨l⟩ : String) := ((Option.some.injEq _ _).mp h).symm
    subst hnm
    have hne : (⟨l⟩ : String) ≠ "" := by
      intro hcon
      exact h2 (congrArg String.data hcon)
    refine ⟨hne, ?_⟩
    rw [is_recursive, if_neg hne]
    exact h1

/-- Two analyzer states that agree on everything the classification pass ever
reads (stack, current function, nesting, maximum) — they may differ in the
function registry, which is written by the pre-pass but never read. -/
def sameCore (st1 st2 : AnalyzerState) : Prop :=
  st1.block_stack = st2.block_stack ∧ st1.current_function = st2.current_function ∧
    st1.nesting_level = st2.nesting_level ∧ st1.max_nesting = st2.max_nesting

theorem analyze_line_sameCore (st1 st2 : AnalyzerState) (line : String)
    (h : sameCore st1 st2) : analyze_line st1 line = analyze_line st2 line := by
  obtain ⟨h1, h2, h3, h4⟩ := h
  rw [analyze_line, analyze_line, h2, h3]

theorem fsigUpdate_sameCore (st1 st2 : AnalyzerState) (line : String)
    (h : sameCore st1 st2) : sameCore (fsigUpdate st1 line) (fsigUpdate st2 line) := by
  obtain ⟨h1, h2, h3, h4⟩ := h
  rw [fsigUpdate, fsigUpdate]
  cases fsigMatch line
  · exact ⟨h1, h2, h3, h4⟩
  · exact ⟨h1, rfl, h3, h4⟩

theorem trackOpen_sameCore (st1 st2 : AnalyzerState) (line : String)
    (h : sameCore st1 st2) : sameCore (trackOpen st1 line) (trackOpen st2 line) := by
  obtain ⟨h1, h2, h3, h4⟩ := h
  rw [trackOpen, trackOpen]
  by_cases hl : hasLoopOpener line = true
  · rw [if_pos hl, if_pos hl]
    exact ⟨by rw [h1], h2, by rw [h3], by rw [h3, h4]⟩
  · rw [if_neg hl, if_neg hl]
    by_cases hb : line.toList.contains '\x7b' = true
    · rw [if_pos hb, if_pos hb]
      exact ⟨by rw [h1], h2, h3, h4⟩
    · rw [if_neg hb, if_neg hb]
      exact ⟨h1, h2, h3, h4⟩

theorem trackClose_sameCore (st1 st2 : AnalyzerState) (line : String)
    (h : sameCore st1 st2) : sameCore (trackClose st1 line) (trackClose st2 line) := by
  obtain ⟨h1, h2, h3, h4⟩ := h
  rw [trackClose, trackClose]
  by_cases hb : line.toList.contains '\x7d' = true
  · rw [if_pos hb, if_pos hb, ← h1]
    cases st1.block_stack with
    | nil => exact ⟨h1, h2, h3, h4⟩
    | cons top rest =>
      dsimp only
      by_cases ht : top = "loop"
      · rw [if_pos ht, if_pos ht]
        exact ⟨rfl, h2, by rw [h3], h4⟩
      · rw [if_neg ht, if_neg ht]
        exact ⟨rfl, h2, h3, h4⟩
  · rw [if_neg hb, if_neg hb]
    exact ⟨h1, h2, h3, h4⟩

theorem lineStep_sameCore (st1 st2 : AnalyzerState) (raw : String)
    (h : sameCore st1 st2) : sameCore (lineStep st1 raw) (lineStep st2 raw) :=
  trackClose_sameCore _ _ _ (trackOpen_sameCore _ _ _ (fsigUpdate_sameCore _ _ _ h))

theorem lineRecord_sameCore (st1 st2 : AnalyzerState) (idx : Nat) (raw : String)
    (h : sameCore st1 st2) : lineRecord st1 idx raw = lineRecord st2 idx raw := by
  rw [lineRecord, lineRecord]
  have hc : analyze_line (trackOpen (fsigUpdate st1 (trim raw)) (trim raw)) (trim raw) =
      analyze_line (trackOpen (fsigUpdate st2 (trim raw)) (trim raw)) (trim raw) :=
    analyze_line_sameCore _ _ _ (trackOpen_sameCore _ _ _ (fsigUpdate_sameCore _ _ _ h))
  rw [hc]

theorem analyzeFrom_sameCore (ls : List String) :
    ∀ (st1 st2 : AnalyzerState) (idx : Nat), sameCore st1 st2 →
      (analyzeFrom st1 idx ls).2 = (analyzeFrom st2 idx ls).2 ∧
        sameCore (analyzeFrom st1 idx ls).1 (analyzeFrom st2 idx ls).1 := by
  induction ls with
  | nil => intro st1 st2 idx h; exact ⟨rfl, h⟩
  | cons l ls ih =>
    intro st1 st2 idx h
    rw [analyzeFrom, analyzeFrom]
    obtain ⟨hrecs, hfin⟩ := ih (lineStep st1 l) (lineStep st2 l) (idx + 1)
      (lineStep_sameCore _ _ _ h)
    exact ⟨by rw [hrecs, lineRecord_sameCore _ _ _ _ h], hfin⟩

theorem analyze_line_ne_linear (st : AnalyzerState) (line : String)
    (h : st.nesting_level ≠ 0 ∨ hasLoopOpener line = false) :
    analyze_line st line ≠ Complexity.LINEAR := by
  rw [analyze_line]
  by_cases hc : is_comment line = true
  · rw [if_pos hc]; simp
  · rw [if_neg hc]
    by_cases hl : hasLoopOpener line = true
    · rw [if_pos hl]
      have hn : st.nesting_level ≠ 0 := by
        rcases h with h | h
        · exact h
        · rw [hl] at h; exact absurd h (by simp)
      rw [if_neg hn]
      split <;> simp
    · rw [if_neg hl]
      split
      · simp
      · split <;> simp

theorem lineRecord_ne_linear (st : AnalyzerState) (idx : Nat) (raw : String)
    (h : st.nesting_level = countLoop st.block_stack) :
    (lineRecord st idx raw).complexity ≠ Complexity.LINEAR := by
  rw [lineRecord]
  apply analyze_line_ne_linear
  by_cases hl : hasLoopOpener (trim raw) = true
  · left
    rw [trackOpen, if_pos hl]
    dsimp only
    rw [fsigUpdate_nesting]
    have := countLoop_nonneg st.block_stack
    omega
  · right
    exact Bool.not_eq_true _ ▸ hl

theorem analyzeFrom_ne_linear (ls : List String) :
    ∀ (st : AnalyzerState) (idx : Nat), st.nesting_level = countLoop st.block_stack →
      ∀ r ∈ (analyzeFrom st idx ls).2, r.complexity ≠ Complexity.LINEAR := by
  induction ls with
  | nil => intro st idx h r hr; rw [analyzeFrom] at hr; exact absurd hr (by simp)
  | cons l ls ih =>
    intro st idx h r hr
    rw [analyzeFrom] at hr
    rcases List.mem_cons.mp hr with rfl | hr
    · exact lineRecord_ne_linear st idx l h
    · exact ih (lineStep st l) (idx + 1) (lineStep_inv st l h) r hr

theorem analyzeFrom_shape (ls : List String) : ∀ (st : AnalyzerState) (idx : Nat),
    (analyzeFrom st idx ls).2.map (fun r => r.line_number) = List.range' (idx + 1) ls.length ∧
    (analyzeFrom st idx ls).2.map (fun r => r.code) = ls.map trim := by
  induction ls with
  | nil => intro st idx; exact ⟨rfl, rfl⟩
  | cons l ls ih =>
    intro st idx
    rw [analyzeFrom]
    obtain ⟨hn, hc⟩ := ih (lineStep st l) (idx + 1)
    constructor
    · rw [List.length_cons, List.range'_succ, List.map_cons, hn]
      rfl
    · rw [List.map_cons, List.map_cons, hc]
      rfl

theorem fsigUpdate_current_of_match (st : AnalyzerState) (line nm : String)
    (h : fsigMatch line = some nm) : (fsigUpdate st line).current_function = nm := by
  rw [fsigUpdate, h]

theorem fsigUpdate_current_of_none (st : AnalyzerState) (line : String)
    (h : fsigMatch line = none) : (fsigUpdate st line).current_function = st.current_function := by
  rw [fsigUpdate, h]

theorem lineStep_current_of_fsig (st : AnalyzerState) (raw nm : String)
    (h : fsigMatch (trim raw) = some nm) : (lineStep st raw).current_function = nm := by
  rw [lineStep, trackClose_current, trackOpen_current, fsigUpdate_current_of_match _ _ _ h]

theorem lineStep_fc (st : AnalyzerState) (raw : String) :
    (lineStep st raw).function_calls = st.function_calls := by
  rw [lineStep, trackClose_fc, trackOpen_fc, fsigUpdate_fc]

theorem analyzeFrom_fc_const (ls : List String) : ∀ (st : AnalyzerState) (idx : Nat),
    (analyzeFrom st idx ls).1.function_calls = st.function_calls := by
  induction ls with
  | nil => intro st idx; rfl
  | cons l ls ih =>
    intro st idx
    rw [analyzeFrom]
    rw [ih (lineStep st l) (idx + 1), lineStep_fc]

theorem lineRecord_rec_core (st : AnalyzerState) (idx : Nat) (raw : String)
    (hc : is_comment (trim raw) = false)
    (hl : hasLoopOpener (trim raw) = false)
    (hcur : (fsigUpdate st (trim raw)).current_function ≠ "")
    (hrec : is_recursive (trim raw) ((fsigUpdate st (trim raw)).current_function) = true) :
    (lineRecord st idx raw).complexity = Complexity.LINEARITHMIC := by
  rw [lineRecord]
  show analyze_line (trackOpen (fsigUpdate st (trim raw)) (trim raw)) (trim raw) =
    Complexity.LINEARITHMIC
  rw [analyze_line, if_neg (by rw [hc]; simp), if_neg (by rw [hl]; simp),
    if_pos (by rw [trackOpen_current]; exact ⟨hcur, hrec⟩)]

/-! ## Claim theorems -/

/-- Claim C1 (refuted; the spec states the intent, the code slips): the spec
says a loop-opener line is classified by the nesting depth in effect before
that line's own loop frame is counted (depth 0 gives LINEAR, 1 QUADRATIC,
2 or more CUBIC).  The code pushes the line's own loop frame and increments
the nesting level before calling `analyze_line`, so a top-level
`for (int i = 0; i < n; i++)` opener line is classified QUADRATIC, with the
self-contradictory reason text "Nested loops" although no loop encloses it;
moreover no line of any run is ever classified LINEAR, so the LINEAR branch
of `analyze_line` and the "Single loop running n times" reason are dead code. -/
theorem c1_loop_depth_shifted :
    ((runAnalyze ["for (int i = 0; i < n; i++) \x7b"]).2.map (fun r => r.complexity) =
        [Complexity.QUADRATIC] ∧
      (runAnalyze ["for (int i = 0; i < n; i++) \x7b"]).2.map (fun r => r.reason) =
        [RED ++ "Nested loops (n × n iterations)" ++ RESET] ∧
      Complexity.QUADRATIC ≠ Complexity.LINEAR) ∧
    ∀ lines : List String,
      ((runAnalyze lines).2.map (fun r => r.complexity)).count Complexity.LINEAR = 0 := by
  constructor
  · exact ⟨by decide, by decide, by decide⟩
  · intro lines
    rw [List.count_eq_zero]
    intro hmem
    obtain ⟨r, hr, hcomp⟩ := List.mem_map.mp hmem
    exact analyzeFrom_ne_linear lines (startState lines) 0 rfl r hr hcomp

/-- Claim C2: the overall verdict is the pure function of the final running
maximum loop-nesting depth given by the spec's table (0 CONSTANT, 1 LINEAR,
2 QUADRATIC, 3 CUBIC, 4 or more LOG_LINEAR = LINEARITHMIC); any two inputs
with the same final maximum depth get the same verdict, so per-line
recursion detection has no effect on it. -/
theorem c2_overall_pure_of_max (lines l1 l2 : List String)
    (h : finalMax l1 = finalMax l2) :
    overallVerdict lines = specDepthClass (finalMax lines).toNat ∧
      overallVerdict l1 = overallVerdict l2 := by
  constructor
  · exact depthSwitch_eq_spec _ (finalMax_nonneg lines)
  · show depthSwitch (finalMax l1) = depthSwitch (finalMax l2)
    rw [h]

theorem c2_overall_pure_of_max_witness :
    finalMax ["while ("] = finalMax ["for ("] ∧
      (overallVerdict ["for (", "for (", "for (", "for ("] =
          specDepthClass (finalMax ["for (", "for (", "for (", "for ("]).toNat ∧
        overallVerdict ["while ("] = overallVerdict ["for ("]) :=
  ⟨by decide,
   c2_overall_pure_of_max ["for (", "for (", "for (", "for ("] ["while ("] ["for ("]
     (by decide)⟩

/-- Claim C3 (counterexample): with `fib` currently active (set by the
definition line, body still open), the later comment line `// fib(n-1);`
contains the active name immediately followed by `(` and is not a loop
opener, yet it is classified CONSTANT (the comment rule fires first),
not LOG_LINEAR as the claim requires. -/
theorem c3_counterexample :
    is_recursive (trim "// fib(n-1);") "fib" = true ∧
    hasLoopOpener (trim "// fib(n-1);") = false ∧
    (stateTrace (startState ["int fib(int n) \x7b", "// fib(n-1);"])
        ["int fib(int n) \x7b", "// fib(n-1);"]).map (fun s => s.current_function) =
      ["", "fib", "fib"] ∧
    (runAnalyze ["int fib(int n) \x7b", "// fib(n-1);"]).2.map (fun r => r.complexity) =
      [Complexity.LINEARITHMIC, Complexity.CONSTANT] ∧
    Complexity.CONSTANT ≠ Complexity.LINEARITHMIC := by
  exact ⟨by decide, by decide, by decide, by decide, by decide⟩

/-- Claim C3 (amended): if the currently active function name is non-empty and
the line (after trimming) contains that exact name, word-boundary delimited
and followed by optional whitespace and an opening parenthesis, and the line
is neither a loop opener nor blank or a comment, then it is classified
LOG_LINEAR (LINEARITHMIC). -/
theorem c3_recursive_call_line (st : AnalyzerState) (idx : Nat) (raw : String)
    (hcur : st.current_function ≠ "")
    (hrec : is_recursive (trim raw) st.current_function = true)
    (hc : is_comment (trim raw) = false)
    (hl : hasLoopOpener (trim raw) = false) :
    (lineRecord st idx raw).complexity = Complexity.LINEARITHMIC := by
  have key : (fsigUpdate st (trim raw)).current_function ≠ "" ∧
      is_recursive (trim raw) ((fsigUpdate st (trim raw)).current_function) = true := by
    rcases hm : fsigMatch (trim raw) with _ | nm
    · rw [fsigUpdate_current_of_none _ _ hm]
      exact ⟨hcur, hrec⟩
    · rw [fsigUpdate_current_of_match _ _ _ hm]
      exact fsigMatch_recursive _ _ hm
  exact lineRecord_rec_core st idx raw hc hl key.1 key.2

theorem c3_recursive_call_line_witness :
    ((⟨[], [], "fib", 0, 0⟩ : AnalyzerState).current_function ≠ "" ∧
      is_recursive (trim "fib(n-1) + fib(n-2);")
        (⟨[], [], "fib", 0, 0⟩ : AnalyzerState).current_function = true ∧
      is_comment (trim "fib(n-1) + fib(n-2);") = false ∧
      hasLoopOpener (trim "fib(n-1) + fib(n-2);") = false) ∧
    (lineRecord ⟨[], [], "fib", 0, 0⟩ 0 "fib(n-1) + fib(n-2);").complexity =
      Complexity.LINEARITHMIC :=
  ⟨⟨by decide, by decide, by decide, by decide⟩,
   c3_recursive_call_line ⟨[], [], "fib", 0, 0⟩ 0 "fib(n-1) + fib(n-2);"
     (by decide) (by decide) (by decide) (by decide)⟩

/-- Claim C4 (counterexample): the definition line `int fib(int n)` followed
by an opening brace is neither a loop opener nor a call statement, yet it is
classified LINEARITHMIC, not CONSTANT: the extracted name `fib` is made
active before the same line's own classification and matches the recursion
check on that very line. -/
theorem c4_counterexample :
    fsigMatch (trim "int fib(int n) \x7b") = some "fib" ∧
    hasLoopOpener (trim "int fib(int n) \x7b") = false ∧
    hasCallStmt (trim "int fib(int n) \x7b") = false ∧
    (runAnalyze ["int fib(int n) \x7b"]).2.map (fun r => r.complexity) =
      [Complexity.LINEARITHMIC] ∧
    Complexity.LINEARITHMIC ≠ Complexity.CONSTANT := by
  exact ⟨by decide, by decide, by decide, by decide, by decide⟩

/-- Claim C4 (amended): when the function-signature pattern matches on a
line, the extracted name becomes the currently active function name before
that same line is classified: a definition line that is not a comment and
not a loop opener therefore classifies LOG_LINEAR (its own name appears
followed by a parenthesis), not CONSTANT, and the name stays active for
subsequent lines until overwritten. -/
theorem c4_fsig_active_immediately (st : AnalyzerState) (idx : Nat) (raw nm : String)
    (hf : fsigMatch (trim raw) = some nm)
    (hc : is_comment (trim raw) = false)
    (hl : hasLoopOpener (trim raw) = false) :
    (lineRecord st idx raw).complexity = Complexity.LINEARITHMIC ∧
    (lineStep st raw).current_function = nm := by
  refine ⟨?_, lineStep_current_of_fsig st raw nm hf⟩
  have key : (fsigUpdate st (trim raw)).current_function ≠ "" ∧
      is_recursive (trim raw) ((fsigUpdate st (trim raw)).current_function) = true := by
    rw [fsigUpdate_current_of_match _ _ _ hf]
    exact fsigMatch_recursive _ _ hf
  exact lineRecord_rec_core st idx raw hc hl key.1 key.2

theorem c4_fsig_active_immediately_witness :
    (fsigMatch (trim "int fib(int n) \x7b2") = some "fib" ∧
      is_comment (trim "int fib(int n) \x7b2") = false ∧
      hasLoopOpener (trim "int fib(int n) \x7b2") = false) ∧
    ((lineRecord ⟨[], [], "", 0, 0⟩ 0 "int fib(int n) \x7b2").complexity =
        Complexity.LINEARITHMIC ∧
      (lineStep ⟨[], [], "", 0, 0⟩ "int fib(int n) \x7b2").current_function = "fib") :=
  ⟨⟨by decide, by decide, by decide⟩,
   c4_fsig_active_immediately ⟨[], [], "", 0, 0⟩ 0 "int fib(int n) \x7b2" "fib"
     (by decide) (by decide) (by decide)⟩

/-- Claim C5 (counterexample, proved as the negation of the claimed
existence): there is no input on which the contents of the pre-registered
function registry make any difference to the per-line records — the
classification pass never reads `function_calls`. -/
theorem c5_counterexample :
    ¬ ∃ (lines : List String) (fc1 fc2 : List (String × Nat)),
        (analyzeFrom { initState with function_calls := fc1 } 0 lines).2 ≠
          (analyzeFrom { initState with function_calls := fc2 } 0 lines).2 := by
  rintro ⟨lines, fc1, fc2, hne⟩
  exact hne (analyzeFrom_sameCore lines { initState with function_calls := fc1 }
    { initState with function_calls := fc2 } 0 ⟨rfl, rfl, rfl, rfl⟩).1

/-- Claim C5 (amended): the FunctionRegistry is built by the pre-pass (the
final state carries exactly `buildRegistry lines`), but it is never
consulted: for every input and every registry contents, the per-line records
and the overall verdict are the same as in the real run. -/
theorem c5_registry_never_consulted (lines : List String) (fc : List (String × Nat)) :
    (analyzeFrom { initState with function_calls := fc } 0 lines).2 = (runAnalyze lines).2 ∧
    estimate_overall_complexity (analyzeFrom { initState with function_calls := fc } 0 lines).1 =
      overallVerdict lines ∧
    ((runAnalyze lines).1).function_calls = buildRegistry lines := by
  obtain ⟨hrecs, hfin⟩ :=
    analyzeFrom_sameCore lines { initState with function_calls := fc } (startState lines) 0
      ⟨rfl, rfl, rfl, rfl⟩
  refine ⟨hrecs, ?_, ?_⟩
  · show depthSwitch _ = depthSwitch _
    rw [hfin.2.2.2]
    rfl
  · exact analyzeFrom_fc_const lines (startState lines) 0

/-- Claim C6: every input line produces exactly one record, in input order,
with the 1-based line number and the trimmed text of that line. -/
theorem c6_one_record_per_line (lines : List String) :
    (runAnalyze lines).2.length = lines.length ∧
    (runAnalyze lines).2.map (fun r => r.line_number) = List.range' 1 lines.length ∧
    (runAnalyze lines).2.map (fun r => r.code) = lines.map trim := by
  obtain ⟨hn, hc⟩ := analyzeFrom_shape lines (startState lines) 0
  refine ⟨?_, hn, hc⟩
  have hlen := congrArg List.length hn
  rw [List.length_map, List.length_range'] at hlen
  exact hlen

/-- Claim C7: running the analysis twice on the same input, each run with a
freshly constructed analyzer as `main` does (all members re-initialized),
yields identical record sequences and identical overall verdicts; the model
threads no state from one run into the next, matching the code in which all
mutable state is instance-owned. -/
theorem c7_two_runs_identical (lines : List String) :
    (runPair lines).1 = (runPair lines).2 ∧
      runPair lines = (runProgram lines, runProgram lines) :=
  ⟨rfl, rfl⟩

/-- Claim C8: a closing brace seen while the block stack is empty is a silent
no-op (the state is returned unchanged: nothing popped, depth untouched, no
fault), and the nesting depth is non-negative at every point of every run. -/
theorem c8_underflow_guard :
    (∀ (st : AnalyzerState) (line : String), st.block_stack = [] → trackClose st line = st) ∧
    (∀ lines : List String, ∀ st ∈ stateTrace (startState lines) lines, 0 ≤ st.nesting_level) := by
  constructor
  · intro st line h
    rw [trackClose]
    split
    · rw [h]
    · rfl
  · intro lines st hmem
    rw [stateTrace_inv lines (startState lines) rfl st hmem]
    exact countLoop_nonneg _

theorem c8_underflow_guard_witness :
    ((⟨[], [], "", 0, 0⟩ : AnalyzerState).block_stack = [] ∧
      trackClose ⟨[], [], "", 0, 0⟩ "\x7d" = ⟨[], [], "", 0, 0⟩) ∧
    ((⟨[], [], "", 0, 0⟩ : AnalyzerState) ∈ stateTrace (startState []) [] ∧
      0 ≤ (⟨[], [], "", 0, 0⟩ : AnalyzerState).nesting_level) :=
  ⟨⟨rfl, c8_underflow_guard.1 ⟨[], [], "", 0, 0⟩ "\x7d" rfl⟩,
   ⟨by decide, c8_underflow_guard.2 [] ⟨[], [], "", 0, 0⟩ (by decide)⟩⟩

/-- Claim C9: within one run the running maximum nesting depth is
monotonically non-decreasing along the state trace, and never negative. -/
theorem c9_max_monotone (lines : List String) :
    List.Chain' (fun a b => a.max_nesting ≤ b.max_nesting)
      (stateTrace (startState lines) lines) ∧
    ∀ st ∈ stateTrace (startState lines) lines, 0 ≤ st.max_nesting :=
  ⟨stateTrace_chain lines _, stateTrace_max_nonneg lines _ (le_refl 0)⟩

theorem c9_max_monotone_witness :
    ((⟨[], ["loop"], "", 1, 1⟩ : AnalyzerState) ∈ stateTrace (startState ["for ("]) ["for ("]) ∧
      0 ≤ (⟨[], ["loop"], "", 1, 1⟩ : AnalyzerState).max_nesting :=
  ⟨by decide, (c9_max_monotone ["for ("]).2 ⟨[], ["loop"], "", 1, 1⟩ (by decide)⟩

/-- Claim C10: at every point of the classification pass the current nesting
level equals the number of LOOP frames on the block stack; a GENERIC_BLOCK
frame contributes nothing to that count while a LOOP frame contributes
exactly one, so generic pushes and pops leave the depth unchanged and loop
pushes and pops change it by exactly one. -/
theorem c10_depth_counts_loop_frames (lines : List String) (st : AnalyzerState)
    (hmem : st ∈ stateTrace (startState lines) lines) :
    st.nesting_level = countLoop st.block_stack ∧
    countLoop ("block" :: st.block_stack) = countLoop st.block_stack ∧
    countLoop ("loop" :: st.block_stack) = countLoop st.block_stack + 1 :=
  ⟨stateTrace_inv lines _ rfl st hmem, countLoop_block _, countLoop_loop _⟩

theorem c10_depth_counts_loop_frames_witness :
    ((⟨[], ["loop"], "", 1, 1⟩ : AnalyzerState) ∈
        stateTrace (startState ["for (int i = 0; i < n; i++)"]) ["for (int i = 0; i < n; i++)"]) ∧
    ((⟨[], ["loop"], "", 1, 1⟩ : AnalyzerState).nesting_level =
        countLoop (⟨[], ["loop"], "", 1, 1⟩ : AnalyzerState).block_stack ∧
      countLoop ("block" :: (⟨[], ["loop"], "", 1, 1⟩ : AnalyzerState).block_stack) =
        countLoop (⟨[], ["loop"], "", 1, 1⟩ : AnalyzerState).block_stack ∧
      countLoop ("loop" :: (⟨[], ["loop"], "", 1, 1⟩ : AnalyzerState).block_stack) =
        countLoop (⟨[], ["loop"], "", 1, 1⟩ : AnalyzerState).block_stack + 1) :=
  ⟨by decide,
   c10_depth_counts_loop_frames ["for (int i = 0; i < n; i++)"] ⟨[], ["loop"], "", 1, 1⟩ (by decide)⟩
